import Mathlib

/-
Verification development for the batch ingestion service (src/index.js).

The service keeps an in-memory ingestion store, a processing queue of
batches, and a single asynchronous drain loop.  The definitions below are a
shallow embedding of that code:

* statuses are the three string literals the code assigns, as an enum;
* `PRIORITY_VALUES` is the lookup table at src/index.js lines 15-19, as a
  partial map (an unknown key reads as JavaScript `undefined`, hence `none`);
* the batch-creation loop of POST /ingest (lines 33-47) is `createBatches`;
  the two effectful calls inside the loop, `uuidv4()` and `Date.now()`, are
  passed in as functions of the iteration index;
* the queue re-sort (lines 50-55) is `sortQueue`, using the library merge
  sort: for a consistent comparator, `Array.prototype.sort` is specified to
  produce a sorted (stable) permutation, which merge sort realizes;
* the status reconciliation (lines 120-143) is `updateIngestionStatus`;
* the drain loop (lines 94-117) is embedded twice, at two grains: as an
  event trace `drainTrace` recording its sequence of actions in program
  order, and as a small-step relation `Step` on whole-system states whose
  atomic segments are the synchronous runs between the two `await`
  suspension points (JavaScript run-to-completion semantics).
-/

/-- Status values assigned by the code: the string literals
`yet_to_start` (line 40), `triggered` (line 101), `completed` (line 109). -/
inductive BStatus
  | yet_to_start
  | triggered
  | completed
deriving DecidableEq, Repr

/-- Batch record built at src/index.js lines 37-43.  `batch_id` is the uuid
(modelled as a number), `priority` is stored as the raw string from the
request, `created_time` is the `Date.now()` reading. -/
structure Batch where
  batch_id : Nat
  ids : List String
  status : BStatus
  priority : String
  created_time : Nat
deriving DecidableEq, Repr

/-- Ingestion record stored at src/index.js lines 58-62. -/
structure Submission where
  ingestion_id : Nat
  status : BStatus
  batches : List Batch
deriving DecidableEq, Repr

/-- Priority lookup table, src/index.js lines 15-19.  A key outside the
three literals reads as JavaScript `undefined`, i.e. `none`. -/
def PRIORITY_VALUES (p : String) : Option Nat :=
  if p = "HIGH" then some 0
  else if p = "MEDIUM" then some 1
  else if p = "LOW" then some 2
  else none

/-- JavaScript value shape of `req.body.ids`, as far as the validation at
src/index.js line 25 can distinguish it: an absent field reads as `undef`. -/
inductive JVal
  | undef
  | nul
  | bool (b : Bool)
  | num (n : Int)
  | str (s : String)
  | arr (elems : List String)
deriving DecidableEq, Repr

/-- JavaScript truthiness of a `JVal` (an object, hence any array, is
truthy, including the empty array). -/
def truthy : JVal → Bool
  | .undef => false
  | .nul => false
  | .bool b => b
  | .num n => n != 0
  | .str s => s ≠ ""
  | .arr _ => true

/-- Test `Array.isArray`. -/
def isArray : JVal → Bool
  | .arr _ => true
  | _ => false

/-- Condition of the rejection branch at src/index.js line 25:
`!ids || !Array.isArray(ids)` returns the 400 InvalidInput response. -/
def ingestRejected (ids : JVal) : Bool :=
  !truthy ids || !isArray ids

/-- Slicing loop of src/index.js line 33-34: `for (i = 0; i < ids.length;
i += 3) ids.slice(i, i + 3)`. -/
def chunkIds : List String → List (List String)
  | [] => []
  | [a] => [[a]]
  | [a, b] => [[a, b]]
  | a :: b :: c :: rest => [a, b, c] :: chunkIds rest

/-- Batch construction over the chunks, src/index.js lines 33-47.  `i` is
the loop iteration index; `freshId i` models the `uuidv4()` call of that
iteration and `clock i` the `Date.now()` call of that iteration (the code
calls `Date.now()` once per loop iteration, line 42). -/
def createBatchesAux (priority : String) (freshId clock : Nat → Nat) :
    Nat → List (List String) → List Batch
  | _, [] => []
  | i, c :: rest =>
      { batch_id := freshId i, ids := c, status := .yet_to_start,
        priority := priority, created_time := clock i }
        :: createBatchesAux priority freshId clock (i + 1) rest

/-- Batches produced by one POST /ingest call with identifier list `ids`. -/
def createBatches (ids : List String) (priority : String)
    (freshId clock : Nat → Nat) : List Batch :=
  createBatchesAux priority freshId clock 0 (chunkIds ids)

/-- Numeric rank used by the comparator; meaningful only when the priority
is one of the three table keys (otherwise the real comparator computes NaN
and the sort order is implementation-defined, so every ordering theorem
below assumes valid priorities). -/
def rank (b : Batch) : Nat :=
  (PRIORITY_VALUES b.priority).getD 0

/-- Boolean form of the comparator at src/index.js lines 50-55: `a` sorts
no later than `b` iff its rank is smaller, or ranks tie and its
`created_time` is no larger. -/
def batchLE (a b : Batch) : Bool :=
  if rank a = rank b then a.created_time ≤ b.created_time
  else rank a < rank b

/-- Insert a batch into an already sorted list, after every element the
comparator puts no later than it. -/
def insertSorted (b : Batch) : List Batch → List Batch
  | [] => [b]
  | x :: xs => if batchLE x b then x :: insertSorted b xs else b :: x :: xs

/-- Re-sort of the processing queue after an ingestion, src/index.js
lines 50-55.  For a consistent comparator `Array.prototype.sort` is
specified to produce a permutation of the array that is sorted under the
comparator; this insertion sort realizes that contract (no claim depends
on the relative order of batches whose rank and `created_time` both tie,
the one point where sort algorithms can differ). -/
def sortQueue : List Batch → List Batch
  | [] => []
  | b :: rest => insertSorted b (sortQueue rest)

/-- Aggregate status formula of src/index.js lines 129-138. -/
def derivedStatus (bs : List Batch) : BStatus :=
  if bs.all (·.status == .completed) then .completed
  else if bs.any (·.status == .triggered) then .triggered
  else .yet_to_start

/-- Replacement `ingestionData.batches[batchIndex] = updatedBatch` at the
first index where `findIndex` matches on `batch_id` (lines 122-126). -/
def updateBatchList : List Batch → Batch → List Batch
  | [], _ => []
  | b :: rest, ub =>
      if b.batch_id = ub.batch_id then ub :: rest
      else b :: updateBatchList rest ub

/-- Test whether a batch list contains a given `batch_id`
(`findIndex ≠ -1`, lines 122-125). -/
def containsBatch (bs : List Batch) (bid : Nat) : Bool :=
  bs.any (·.batch_id == bid)

/-- Reconciliation function `updateIngestionStatus`, src/index.js
lines 120-143: scan submissions in store order, update the first one whose
batch list contains the updated batch id, recompute its status, and stop
(`break`); a submission not containing the id is left untouched. -/
def updateIngestionStatus : List Submission → Batch → List Submission
  | [], _ => []
  | s :: rest, ub =>
      if containsBatch s.batches ub.batch_id then
        { s with batches := updateBatchList s.batches ub,
                 status := derivedStatus (updateBatchList s.batches ub) } :: rest
      else s :: updateIngestionStatus rest ub

/-- Observable actions of one pass of the drain loop body, src/index.js
lines 97-114, in program order. -/
inductive Ev
  | trigger (bid : Nat)
  | publish (bid : Nat) (st : BStatus)
  | fetch (bid : Nat)
  | complete (bid : Nat)
  | cooldown
deriving DecidableEq, Repr

/-- Actions of one iteration of the `while` body for the shifted batch:
set status triggered (line 101), publish (102), await all fetches
(105-106), set status completed (109), publish (110), await the 5 second
timer (113).  The cooldown is unconditional in the code. -/
def perBatchTrace (b : Batch) : List Ev :=
  [.trigger b.batch_id, .publish b.batch_id .triggered, .fetch b.batch_id,
   .complete b.batch_id, .publish b.batch_id .completed, .cooldown]

/-- Trace of `processBatches` draining a queue with no concurrent
ingestion: `while (queue.length > 0) { shift; body }`. -/
def drainTrace : List Batch → List Ev
  | [] => []
  | b :: rest => perBatchTrace b ++ drainTrace rest

/-- Check that every publish-completed event is immediately followed by a
cooldown event. -/
def cooldownAfterComplete : List Ev → Bool
  | [] => true
  | Ev.publish _ BStatus.completed :: rest =>
      match rest with
      | Ev.cooldown :: _ => cooldownAfterComplete rest
      | _ => false
  | _ :: rest => cooldownAfterComplete rest

/-- Test whether an event concerns the batch with the given id. -/
def mentions (bid : Nat) : Ev → Bool
  | .trigger b => b == bid
  | .publish b _ => b == bid
  | .fetch b => b == bid
  | .complete b => b == bid
  | .cooldown => false

/-- Subtrace of the events concerning one batch id. -/
def eventsOf (bid : Nat) (t : List Ev) : List Ev :=
  t.filter (mentions bid)

/-- Suspension point at which an active drain loop is parked.  The loop
body has exactly two `await`s: the `Promise.all` of the fetches (line 106)
and the 5 second timer (line 113); everything between them runs
synchronously (JavaScript run-to-completion). -/
inductive LoopPC
  | inFetch (b : Batch)
  | inCooldown
deriving DecidableEq, Repr

/-- Whole-system state for the concurrency model: the processing queue,
the `isProcessing` flag, and the suspended program counters of every
active drain loop (the model lets ingestion spawn a loop wherever the code
does, so that single-flight is a theorem, not an assumption). -/
structure SysState where
  queue : List Batch
  isProcessing : Bool
  loops : List LoopPC
deriving Repr

/-- Synchronous run from the top of the `while` check to the next
suspension point: an empty queue falls out of the loop (which then sets
`isProcessing = false` and returns, hence `none`); otherwise the front
batch is shifted and the loop suspends awaiting its fetches. -/
def loopCheck (q : List Batch) : List Batch × Option LoopPC :=
  match q with
  | [] => ([], none)
  | b :: rest => (rest, some (.inFetch b))

/-- Queue contents after the ingest handler appends the new batches and
re-sorts (src/index.js lines 46, 50-55). -/
def ingestQueue (q newBatches : List Batch) : List Batch :=
  sortQueue (q ++ newBatches)

/-- State after an ingest that finds `isProcessing` false: the handler
calls `processBatches()`, which synchronously sets the flag, runs the
`while` check, and either returns at once (empty queue) or suspends one
new loop at its first fetch. -/
def ingestStart (q newBatches : List Batch) (loops : List LoopPC) : SysState :=
  match loopCheck (ingestQueue q newBatches) with
  | (rest, none) => ⟨rest, false, loops⟩
  | (rest, some pc) => ⟨rest, true, loops ++ [pc]⟩

/-- Small-step relation between suspension points.  `ingest_idle` and
`ingest_busy` are the POST /ingest handler (lines 22-70) depending on the
`isProcessing` test at line 65; `fetch_done` resumes a loop when its
`Promise.all` settles and runs lines 109-113 to the timer await;
`cooldown_done` resumes a loop when its timer fires and runs the `while`
check, exiting (line 116) or shifting the next batch. -/
inductive Step : SysState → SysState → Prop
  | ingest_idle (q : List Batch) (loops : List LoopPC) (newBatches : List Batch) :
      Step ⟨q, false, loops⟩ (ingestStart q newBatches loops)
  | ingest_busy (q : List Batch) (loops : List LoopPC) (newBatches : List Batch) :
      Step ⟨q, true, loops⟩ ⟨ingestQueue q newBatches, true, loops⟩
  | fetch_done (q : List Batch) (p : Bool) (l₁ l₂ : List LoopPC) (b : Batch) :
      Step ⟨q, p, l₁ ++ LoopPC.inFetch b :: l₂⟩ ⟨q, p, l₁ ++ LoopPC.inCooldown :: l₂⟩
  | cooldown_exit (p : Bool) (l₁ l₂ : List LoopPC) :
      Step ⟨[], p, l₁ ++ LoopPC.inCooldown :: l₂⟩ ⟨[], false, l₁ ++ l₂⟩
  | cooldown_next (b : Batch) (rest : List Batch) (p : Bool) (l₁ l₂ : List LoopPC) :
      Step ⟨b :: rest, p, l₁ ++ LoopPC.inCooldown :: l₂⟩
        ⟨rest, p, l₁ ++ LoopPC.inFetch b :: l₂⟩

/-- Initial state of the freshly started process: empty queue, flag false,
no loop running (src/index.js lines 10-12). -/
def initState : SysState := ⟨[], false, []⟩

/-- States reachable from process start. -/
def Reachable (s : SysState) : Prop :=
  Relation.ReflTransGen Step initState s

/-- Count of loops currently awaiting an in-flight fetch, i.e. batches in
the triggered, in-flight state. -/
def inFlight (s : SysState) : Nat :=
  (s.loops.filter (fun pc => match pc with
    | .inFetch _ => true
    | .inCooldown => false)).length

/-- Single-flight invariant: at most one loop exists, and the
`isProcessing` flag is set exactly while one does. -/
def LoopInv (s : SysState) : Prop :=
  s.loops.length ≤ 1 ∧ (s.isProcessing = true ↔ s.loops ≠ [])

theorem chunkIds_length (l : List String) :
    (chunkIds l).length = (l.length + 2) / 3 := by
  induction l using chunkIds.induct with
  | case1 => simp [chunkIds]
  | case2 a => simp [chunkIds]
  | case3 a b => simp [chunkIds]
  | case4 a b c rest ih => simp only [chunkIds, List.length_cons, ih]; omega

theorem chunkIds_flatten (l : List String) : (chunkIds l).flatten = l := by
  induction l using chunkIds.induct <;> simp [chunkIds, *]

theorem chunkIds_le3 (l : List String) : ∀ c ∈ chunkIds l, c.length ≤ 3 := by
  induction l using chunkIds.induct with
  | case1 => simp [chunkIds]
  | case2 a => simp [chunkIds]
  | case3 a b => simp [chunkIds]
  | case4 a b c rest ih =>
      intro x hx
      simp only [chunkIds, List.mem_cons] at hx
      rcases hx with h | h
      · simp [h]
      · exact ih x h

theorem createBatchesAux_map_ids (p : String) (f c : Nat → Nat)
    (cs : List (List String)) : ∀ i,
    (createBatchesAux p f c i cs).map Batch.ids = cs := by
  induction cs with
  | nil => intro i; simp [createBatchesAux]
  | cons hd tl ih => intro i; simp [createBatchesAux, ih]

/-- C3: splitting a list of N identifiers yields exactly ceil(N/3)
batches, each holding at most 3 identifiers, and concatenating the
batches' id lists in creation order restores the input list. -/
theorem C3_splitter_shape (ids : List String) (p : String) (f c : Nat → Nat) :
    (createBatches ids p f c).length = (ids.length + 2) / 3 ∧
    (∀ b ∈ createBatches ids p f c, b.ids.length ≤ 3) ∧
    ((createBatches ids p f c).map Batch.ids).flatten = ids := by
  refine ⟨?_, ?_, ?_⟩
  · have h := congrArg List.length (createBatchesAux_map_ids p f c (chunkIds ids) 0)
    simpa [createBatches, chunkIds_length] using h
  · intro b hb
    have hm : b.ids ∈ (createBatchesAux p f c 0 (chunkIds ids)).map Batch.ids :=
      List.mem_map_of_mem Batch.ids hb
    rw [createBatchesAux_map_ids] at hm
    exact chunkIds_le3 ids b.ids hm
  · rw [createBatches, createBatchesAux_map_ids, chunkIds_flatten]

theorem createBatchesAux_priority (p : String) (f c : Nat → Nat)
    (cs : List (List String)) : ∀ i, ∀ b ∈ createBatchesAux p f c i cs,
    b.priority = p := by
  induction cs with
  | nil => intro i b hb; simp [createBatchesAux] at hb
  | cons hd tl ih =>
      intro i b hb
      simp only [createBatchesAux, List.mem_cons] at hb
      rcases hb with h | h
      · simp [h]
      · exact ih (i + 1) b h

theorem createBatchesAux_time (p : String) (f clock : Nat → Nat)
    (h : ∀ i, clock i = clock 0) (cs : List (List String)) : ∀ i,
    ∀ b ∈ createBatchesAux p f clock i cs, b.created_time = clock 0 := by
  induction cs with
  | nil => intro i b hb; simp [createBatchesAux] at hb
  | cons hd tl ih =>
      intro i b hb
      simp only [createBatchesAux, List.mem_cons] at hb
      rcases hb with hb | hb
      · simp [hb, h i]
      · exact ih (i + 1) b hb

/-- C6 counterexample: a submit whose ids field is the empty array is NOT
rejected by the validation at src/index.js line 25 (the empty array is
truthy and `Array.isArray` accepts it), refuting the claim that an empty
identifier list fails with InvalidInput. -/
theorem C6_counterexample : ¬ ingestRejected (JVal.arr []) = true := by decide

/-- C6 amended: the submit validation rejects with InvalidInput exactly
when the ids field is not an array (a missing field reads as `undefined`,
which is not an array); an empty array is accepted. -/
theorem C6_validation_iff_not_array (v : JVal) :
    ingestRejected v = !isArray v := by
  cases v <;> simp [ingestRejected, truthy, isArray]

/-- C10: the submit handler never inspects the priority field: any request
whose ids field is an array passes validation whatever the priority, the
priority string is stored unchanged on every created batch, and a value
outside HIGH/MEDIUM/LOW has no entry in `PRIORITY_VALUES` (the comparator
would read `undefined`). -/
theorem C10_no_priority_validation (l : List String) (p : String)
    (f c : Nat → Nat) :
    ingestRejected (JVal.arr l) = false ∧
    (∀ b ∈ createBatches l p f c, b.priority = p) ∧
    (p ≠ "HIGH" → p ≠ "MEDIUM" → p ≠ "LOW" → PRIORITY_VALUES p = none) := by
  refine ⟨rfl, createBatchesAux_priority p f c (chunkIds l) 0, ?_⟩
  intro h1 h2 h3
  simp [PRIORITY_VALUES, h1, h2, h3]

/-- C10 witness at a concrete request with an unknown priority string. -/
theorem C10_no_priority_validation_witness :
    ingestRejected (JVal.arr ["a", "b", "c", "d"]) = false ∧
    (∀ b ∈ createBatches ["a", "b", "c", "d"] "URGENT" id id,
      b.priority = "URGENT") ∧
    PRIORITY_VALUES "URGENT" = none := by
  have h := C10_no_priority_validation ["a", "b", "c", "d"] "URGENT" id id
  exact ⟨h.1, h.2.1, h.2.2 (by decide) (by decide) (by decide)⟩

/-- C7 counterexample: the code calls `Date.now()` once per loop iteration
(src/index.js line 42), so with a clock that advances by one tick per call
a four-identifier submission gets two batches with different
`created_time` values, refuting the single-shared-timestamp claim. -/
theorem C7_counterexample :
    ¬ (∀ b1 ∈ createBatches ["a", "b", "c", "d"] "HIGH" (fun i => i) (fun i => i),
       ∀ b2 ∈ createBatches ["a", "b", "c", "d"] "HIGH" (fun i => i) (fun i => i),
         b1.created_time = b2.created_time) := by decide

/-- C7 amended: each batch's `created_time` is the clock reading at that
batch's own creation; whenever the clock does not advance during the
splitting loop, all batches of the submission share one timestamp. -/
theorem C7_shared_clock (ids : List String) (p : String) (f clock : Nat → Nat)
    (h : ∀ i, clock i = clock 0) :
    ∀ b ∈ createBatches ids p f clock, b.created_time = clock 0 :=
  createBatchesAux_time p f clock h (chunkIds ids) 0

/-- C7 witness: with a constant clock, the second batch of a concrete
four-id submission carries the shared timestamp. -/
theorem C7_shared_clock_witness :
    (⟨1, ["d"], BStatus.yet_to_start, "LOW", 42⟩ : Batch).created_time = 42 :=
  C7_shared_clock ["a", "b", "c", "d"] "LOW" id (fun _ => 42) (fun i => rfl)
    ⟨1, ["d"], BStatus.yet_to_start, "LOW", 42⟩ (by decide)

theorem batchLE_refl (a : Batch) : batchLE a a = true := by
  simp [batchLE]

theorem batchLE_total (a b : Batch) : (batchLE a b || batchLE b a) = true := by
  by_cases h : rank a = rank b
  · simp only [batchLE, h, if_pos, if_true]
    rcases Nat.le_total a.created_time b.created_time with h1 | h1 <;> simp [h1]
  · rcases Nat.lt_or_gt_of_ne h with h1 | h1 <;>
      simp [batchLE, h, Ne.symm h, h1, Nat.not_lt_of_gt h1]

theorem batchLE_trans (a b c : Batch) (h1 : batchLE a b = true)
    (h2 : batchLE b c = true) : batchLE a c = true := by
  simp only [batchLE] at h1 h2 ⊢
  by_cases hab : rank a = rank b <;> by_cases hbc : rank b = rank c <;>
    by_cases hac : rank a = rank c <;> simp_all <;> omega

theorem insertSorted_perm (b : Batch) (l : List Batch) :
    (insertSorted b l).Perm (b :: l) := by
  induction l with
  | nil => exact List.Perm.refl _
  | cons x xs ih =>
      by_cases h : batchLE x b
      · simp only [insertSorted, if_pos h]
        exact (ih.cons x).trans (List.Perm.swap b x xs)
      · simp [insertSorted, if_neg h]

theorem insertSorted_mem (b : Batch) (l : List Batch) (c : Batch)
    (hc : c ∈ insertSorted b l) : c = b ∨ c ∈ l := by
  have := (insertSorted_perm b l).mem_iff.mp hc
  simpa using this

theorem insertSorted_pairwise (b : Batch) (l : List Batch)
    (hl : l.Pairwise (fun a c => batchLE a c = true)) :
    (insertSorted b l).Pairwise (fun a c => batchLE a c = true) := by
  induction l with
  | nil => simp [insertSorted]
  | cons x xs ih =>
      rcases List.pairwise_cons.mp hl with ⟨hx, hxs⟩
      by_cases h : batchLE x b
      · rw [insertSorted, if_pos h]
        refine List.pairwise_cons.mpr ⟨?_, ih hxs⟩
        intro c hc
        rcases insertSorted_mem b xs c hc with rfl | hm
        · exact h
        · exact hx c hm
      · rw [insertSorted, if_neg h]
        refine List.pairwise_cons.mpr ⟨?_, hl⟩
        intro c hc
        have hbx : batchLE b x = true := by
          have := batchLE_total x b
          simp [h] at this
          exact this
        rcases List.mem_cons.mp hc with rfl | hm
        · exact hbx
        · exact batchLE_trans b x c hbx (hx c hm)

theorem sortQueue_perm (q : List Batch) : (sortQueue q).Perm q := by
  induction q with
  | nil => exact List.Perm.refl _
  | cons b rest ih =>
      exact (insertSorted_perm b (sortQueue rest)).trans (ih.cons b)

theorem sortQueue_pairwise (q : List Batch) :
    (sortQueue q).Pairwise (fun a c => batchLE a c = true) := by
  induction q with
  | nil => simp [sortQueue]
  | cons b rest ih => exact insertSorted_pairwise b (sortQueue rest) ih

theorem pairwise_head_le (l : List Batch) (x : Batch)
    (hp : l.Pairwise (fun a c => batchLE a c = true)) (hx : l.head? = some x) :
    ∀ b ∈ l, batchLE x b = true := by
  cases l with
  | nil => simp at hx
  | cons y t =>
      have hyx : y = x := by simpa using hx
      subst hyx
      intro b hb
      rcases List.mem_cons.mp hb with rfl | hm
      · exact batchLE_refl b
      · exact (List.pairwise_cons.mp hp).1 b hm

/-- C1: the re-sorted queue is a permutation of the incoming queue, and
after any number `n` of dequeues (the loop only ever `shift`s from the
front), the batch at the front of what remains sorts no later than every
remaining batch under the comparator: smallest priority rank first
(HIGH = 0 before MEDIUM = 1 before LOW = 2), ties by ascending
`created_time`.  The hypothesis restricts to queues whose priorities are
table keys, the domain on which the comparator is well defined (otherwise
the real comparator computes NaN and the sort order is unspecified). -/
theorem C1_dequeue_minimal (q : List Batch)
    (_hv : ∀ b ∈ q, (PRIORITY_VALUES b.priority).isSome = true) :
    (sortQueue q).Perm q ∧
    ∀ n x, ((sortQueue q).drop n).head? = some x →
      ∀ b ∈ (sortQueue q).drop n, batchLE x b = true := by
  refine ⟨sortQueue_perm q, ?_⟩
  intro n x hx b hb
  have hp : ((sortQueue q).drop n).Pairwise (fun a c => batchLE a c = true) :=
    List.Pairwise.sublist (List.drop_sublist n (sortQueue q))
      (sortQueue_pairwise q)
  exact pairwise_head_le _ x hp hx b hb

/-- C1 witness: submit a LOW batch then a HIGH batch; after the re-sort
the HIGH batch is at the front and sorts before the LOW one. -/
theorem C1_dequeue_minimal_witness :
    batchLE ⟨2, ["b"], BStatus.yet_to_start, "HIGH", 5⟩
      ⟨1, ["a"], BStatus.yet_to_start, "LOW", 0⟩ = true := by
  have h := (C1_dequeue_minimal
    [⟨1, ["a"], BStatus.yet_to_start, "LOW", 0⟩,
     ⟨2, ["b"], BStatus.yet_to_start, "HIGH", 5⟩] (by decide)).2 0
    ⟨2, ["b"], BStatus.yet_to_start, "HIGH", 5⟩ (by decide)
    ⟨1, ["a"], BStatus.yet_to_start, "LOW", 0⟩ (by decide)
  exact h

/-- C4 counterexample: draining a single-batch queue, the loop runs the
cooldown after the final batch completes and only then exits — the trace
ends in a cooldown event, refuting the no-pause-after-the-last-batch
claim (the `await` at src/index.js line 113 is unconditional). -/
theorem C4_counterexample :
    drainTrace [⟨1, ["a"], BStatus.yet_to_start, "HIGH", 0⟩] =
      [Ev.trigger 1, Ev.publish 1 BStatus.triggered, Ev.fetch 1,
       Ev.complete 1, Ev.publish 1 BStatus.completed, Ev.cooldown] ∧
    (drainTrace [⟨1, ["a"], BStatus.yet_to_start, "HIGH", 0⟩]).getLast? =
      some Ev.cooldown := ⟨rfl, rfl⟩

/-- C4 amended: after every completed batch — including the final batch of
a drain — the loop suspends for the fixed cooldown before re-checking the
queue: in the drain trace each publish-completed event is immediately
followed by a cooldown event, and there are exactly as many cooldowns as
batches drained. -/
theorem C4_cooldown_after_every_batch (q : List Batch) :
    cooldownAfterComplete (drainTrace q) = true ∧
    (drainTrace q).count Ev.cooldown = q.length := by
  induction q with
  | nil => exact ⟨rfl, rfl⟩
  | cons b rest ih =>
      constructor
      · simp only [drainTrace, perBatchTrace, List.cons_append, List.nil_append,
          cooldownAfterComplete]
        exact ih.1
      · simp only [drainTrace, List.count_append, perBatchTrace, List.length_cons,
          ih.2]
        simp [List.count_cons]
        omega

theorem eventsOf_skip (bid : Nat) (b : Batch) (t : List Ev)
    (h : b.batch_id ≠ bid) :
    eventsOf bid (perBatchTrace b ++ t) = eventsOf bid t := by
  simp [eventsOf, perBatchTrace, List.filter_append, mentions, h]

theorem eventsOf_self (b : Batch) (t : List Ev) :
    eventsOf b.batch_id (perBatchTrace b ++ t) =
      [.trigger b.batch_id, .publish b.batch_id .triggered, .fetch b.batch_id,
       .complete b.batch_id, .publish b.batch_id .completed]
        ++ eventsOf b.batch_id t := by
  simp [eventsOf, perBatchTrace, List.filter_append, mentions]

theorem eventsOf_not_mem (bid : Nat) (q : List Batch)
    (h : bid ∉ q.map Batch.batch_id) : eventsOf bid (drainTrace q) = [] := by
  induction q with
  | nil => rfl
  | cons b rest ih =>
      simp only [List.map_cons, List.mem_cons] at h
      push_neg at h
      rw [drainTrace, eventsOf_skip bid b _ (Ne.symm h.1)]
      exact ih h.2

/-- C5: during a drain, the events concerning one queued batch are exactly,
in order: status set to triggered, the triggered status published, the
fetches started and awaited, status set to completed, the completed status
published.  So each batch's status advances yet_to_start (at creation) →
triggered → completed with no regression and no skipped state, and the
triggered status reaches the store before the batch's fetches begin. -/
theorem C5_monotone_lifecycle (q : List Batch) (b : Batch)
    (hb : b ∈ q) (hnd : (q.map Batch.batch_id).Nodup) :
    eventsOf b.batch_id (drainTrace q) =
      [.trigger b.batch_id, .publish b.batch_id .triggered, .fetch b.batch_id,
       .complete b.batch_id, .publish b.batch_id .completed] := by
  induction q with
  | nil => cases hb
  | cons a rest ih =>
      simp only [List.map_cons, List.nodup_cons] at hnd
      rcases List.mem_cons.mp hb with rfl | hm
      · rw [drainTrace, eventsOf_self, eventsOf_not_mem b.batch_id rest hnd.1]
        simp
      · have hne : a.batch_id ≠ b.batch_id := by
          intro he
          exact hnd.1 (he ▸ List.mem_map_of_mem Batch.batch_id hm)
        rw [drainTrace, eventsOf_skip b.batch_id a _ hne]
        exact ih hm hnd.2

/-- C5 witness: in a concrete two-batch drain, the second batch's events
are exactly the five lifecycle events in order. -/
theorem C5_monotone_lifecycle_witness :
    eventsOf 2 (drainTrace [⟨1, ["a"], BStatus.yet_to_start, "HIGH", 0⟩,
                            ⟨2, ["b"], BStatus.yet_to_start, "LOW", 0⟩]) =
      [Ev.trigger 2, Ev.publish 2 BStatus.triggered, Ev.fetch 2,
       Ev.complete 2, Ev.publish 2 BStatus.completed] := by
  have h := C5_monotone_lifecycle
    [⟨1, ["a"], BStatus.yet_to_start, "HIGH", 0⟩,
     ⟨2, ["b"], BStatus.yet_to_start, "LOW", 0⟩]
    ⟨2, ["b"], BStatus.yet_to_start, "LOW", 0⟩ (by decide) (by decide)
  simpa using h

/-- C2 counterexample: the store can reach a state (ingest an empty ids
list, then ingest one real batch and let the loop trigger it) in which a
zero-batch submission sits at status yet_to_start while the aggregate
formula — all of its (zero) batches completed — says completed; the
reconciliation never touches it, so the claimed equality fails for it. -/
theorem C2_counterexample :
    ¬ (∀ s ∈ updateIngestionStatus
        [⟨10, BStatus.yet_to_start, []⟩,
         ⟨11, BStatus.yet_to_start,
          [⟨1, ["a"], BStatus.yet_to_start, "MEDIUM", 0⟩]⟩]
        ⟨1, ["a"], BStatus.triggered, "MEDIUM", 0⟩,
        s.status = derivedStatus s.batches) := by decide

/-- C2 amended: restricted to submissions with at least one batch, the
aggregate-status formula (completed if all batches completed, else
triggered if any batch triggered, else yet_to_start) is established for a
fresh submission at ingestion and preserved across every batch update
applied through the reconciliation function. -/
theorem C2_status_formula (store : List Submission) (ub : Batch)
    (sub : Submission)
    (hfresh : sub.status = BStatus.yet_to_start ∧
      ∀ b ∈ sub.batches, b.status = BStatus.yet_to_start)
    (hinv : ∀ s ∈ store, s.batches ≠ [] → s.status = derivedStatus s.batches) :
    (sub.batches ≠ [] → sub.status = derivedStatus sub.batches) ∧
    (∀ s ∈ updateIngestionStatus store ub, s.batches ≠ [] →
      s.status = derivedStatus s.batches) := by
  constructor
  · intro hne
    obtain ⟨b, hb⟩ := List.exists_mem_of_ne_nil sub.batches hne
    have hall : sub.batches.all (·.status == BStatus.completed) = false := by
      refine List.all_eq_false.mpr ⟨b, hb, ?_⟩
      simp [hfresh.2 b hb]
    have hany : sub.batches.any (·.status == BStatus.triggered) = false := by
      refine List.any_eq_false.mpr ?_
      intro x hx
      simp [hfresh.2 x hx]
    rw [hfresh.1, derivedStatus, hall, hany]
    simp
  · clear hfresh
    induction store with
    | nil => intro s hs; simp [updateIngestionStatus] at hs
    | cons a rest ih =>
        intro s hs hne
        rw [updateIngestionStatus] at hs
        by_cases h : containsBatch a.batches ub.batch_id
        · rw [if_pos h] at hs
          rcases List.mem_cons.mp hs with rfl | hm
          · rfl
          · exact hinv s (List.mem_cons_of_mem a hm) hne
        · rw [if_neg h] at hs
          rcases List.mem_cons.mp hs with rfl | hm
          · exact hinv _ (List.mem_cons_self _ _) hne
          · exact ih (fun x hx => hinv x (List.mem_cons_of_mem a hx)) s hm hne

/-- C2 witness: updating the one batch of a one-batch submission to
triggered leaves the submission at status triggered, which is what the
formula derives for its batch list. -/
theorem C2_status_formula_witness :
    BStatus.triggered =
      derivedStatus [⟨1, ["a"], BStatus.triggered, "MEDIUM", 0⟩] := by
  have h := (C2_status_formula
      [⟨11, BStatus.yet_to_start,
        [⟨1, ["a"], BStatus.yet_to_start, "MEDIUM", 0⟩]⟩]
      ⟨1, ["a"], BStatus.triggered, "MEDIUM", 0⟩
      ⟨12, BStatus.yet_to_start, []⟩
      ⟨rfl, by decide⟩ (by decide)).2
      ⟨11, BStatus.triggered, [⟨1, ["a"], BStatus.triggered, "MEDIUM", 0⟩]⟩
      (by decide) (by decide)
  exact h

theorem empty_sub_preserved (ub : Batch) (store : List Submission)
    (sub : Submission) (hempty : sub.batches = []) (hmem : sub ∈ store) :
    sub ∈ updateIngestionStatus store ub := by
  induction store with
  | nil => cases hmem
  | cons a rest ih =>
      rw [updateIngestionStatus]
      by_cases h : containsBatch a.batches ub.batch_id
      · rw [if_pos h]
        rcases List.mem_cons.mp hmem with hsa | hm
        · exfalso
          rw [← hsa, hempty] at h
          simp [containsBatch] at h
        · exact List.mem_cons_of_mem _ hm
      · rw [if_neg h]
        rcases List.mem_cons.mp hmem with hsa | hm
        · exact hsa ▸ List.mem_cons_self _ _
        · exact List.mem_cons_of_mem _ (ih hm)

theorem empty_sub_preserved_fold (ubs : List Batch) (store : List Submission)
    (sub : Submission) (hempty : sub.batches = []) (hmem : sub ∈ store) :
    sub ∈ List.foldl updateIngestionStatus store ubs := by
  induction ubs generalizing store with
  | nil => exact hmem
  | cons u us ih =>
      exact ih (updateIngestionStatus store u)
        (empty_sub_preserved u store sub hempty hmem)

/-- C9: a submit whose ids field is the empty array passes validation and
so succeeds with a submission id; the splitting loop runs zero iterations,
producing no batches and enqueueing nothing; and the stored zero-batch
submission record — including its yet_to_start status — survives every
sequence of batch updates applied through the reconciliation function
unchanged, because no updated batch id is ever found in its empty batch
list, so its status never becomes completed. -/
theorem C9_empty_ids_submission (p : String) (f c : Nat → Nat)
    (store : List Submission) (sub : Submission) (ubs : List Batch)
    (hempty : sub.batches = []) (hmem : sub ∈ store) :
    ingestRejected (JVal.arr []) = false ∧
    createBatches [] p f c = [] ∧
    sub ∈ List.foldl updateIngestionStatus store ubs :=
  ⟨rfl, rfl, empty_sub_preserved_fold ubs store sub hempty hmem⟩

/-- C9 witness: a concrete zero-batch submission still sits in the store,
untouched, after a trigger and a complete update for another submission's
batch are reconciled. -/
theorem C9_empty_ids_submission_witness :
    ingestRejected (JVal.arr []) = false ∧
    createBatches [] "MEDIUM" id id = [] ∧
    (⟨7, BStatus.yet_to_start, []⟩ : Submission) ∈
      List.foldl updateIngestionStatus
        [⟨7, BStatus.yet_to_start, []⟩,
         ⟨11, BStatus.yet_to_start,
          [⟨1, ["a"], BStatus.yet_to_start, "MEDIUM", 0⟩]⟩]
        [⟨1, ["a"], BStatus.triggered, "MEDIUM", 0⟩,
         ⟨1, ["a"], BStatus.completed, "MEDIUM", 0⟩] :=
  C9_empty_ids_submission "MEDIUM" id id _ _ _ rfl (by decide)

theorem loopInv_init : LoopInv initState := by
  constructor <;> simp [initState, LoopInv]

theorem loopInv_step (s t : SysState) (hs : LoopInv s) (hst : Step s t) :
    LoopInv t := by
  cases hst with
  | ingest_idle q loops newBatches =>
      have hl : loops = [] := by
        rcases hs with ⟨h1, h2⟩
        by_contra hne
        have := h2.mpr hne
        simp at this
      subst hl
      cases hq : ingestQueue q newBatches with
      | nil => simp [ingestStart, hq, loopCheck, LoopInv]
      | cons b rest => simp [ingestStart, hq, loopCheck, LoopInv]
  | ingest_busy q loops newBatches =>
      simpa [LoopInv] using hs
  | fetch_done q p l₁ l₂ b =>
      rcases hs with ⟨h1, h2⟩
      constructor
      · simp only [List.length_append, List.length_cons] at h1 ⊢
        exact h1
      · have ha : l₁ ++ LoopPC.inFetch b :: l₂ ≠ [] := by simp
        have hb : l₁ ++ LoopPC.inCooldown :: l₂ ≠ [] := by simp
        exact ⟨fun _ => hb, fun _ => h2.mpr ha⟩
  | cooldown_exit p l₁ l₂ =>
      rcases hs with ⟨h1, h2⟩
      have hz : l₁.length = 0 ∧ l₂.length = 0 := by
        simp only [List.length_append, List.length_cons] at h1
        omega
      have e1 : l₁ = [] := List.length_eq_zero.mp hz.1
      have e2 : l₂ = [] := List.length_eq_zero.mp hz.2
      subst e1
      subst e2
      exact ⟨by simp, by simp⟩
  | cooldown_next b rest p l₁ l₂ =>
      rcases hs with ⟨h1, h2⟩
      constructor
      · simp only [List.length_append, List.length_cons] at h1 ⊢
        exact h1
      · have ha : l₁ ++ LoopPC.inCooldown :: l₂ ≠ [] := by simp
        have hb : l₁ ++ LoopPC.inFetch b :: l₂ ≠ [] := by simp
        exact ⟨fun _ => hb, fun _ => h2.mpr ha⟩

/-- C8: in every state reachable from process start, at most one drain
loop is active, at most one batch is awaiting its in-flight fetches, and
the `isProcessing` flag is set exactly while a loop is active — so an
ingestion arriving during a drain takes the `ingest_busy` step, which only
re-sorts the enlarged queue and starts no second loop. -/
theorem C8_single_flight (s : SysState) (hr : Reachable s) :
    s.loops.length ≤ 1 ∧ inFlight s ≤ 1 ∧
      (s.isProcessing = true ↔ s.loops ≠ []) := by
  have hinv : LoopInv s := by
    induction hr with
    | refl => exact loopInv_init
    | tail hab hbc ih => exact loopInv_step _ _ ih hbc
  refine ⟨hinv.1, ?_, hinv.2⟩
  calc inFlight s ≤ s.loops.length := List.length_filter_le _ _
    _ ≤ 1 := hinv.1

/-- C8 witness: the state reached by one ingestion from the idle initial
state — one loop suspended at its first fetch — satisfies the bounds. -/
theorem C8_single_flight_witness :
    (⟨[], true,
      [LoopPC.inFetch ⟨1, ["a"], BStatus.yet_to_start, "HIGH", 0⟩]⟩ :
        SysState).loops.length ≤ 1 ∧
    inFlight ⟨[], true,
      [LoopPC.inFetch ⟨1, ["a"], BStatus.yet_to_start, "HIGH", 0⟩]⟩ ≤ 1 ∧
    ((⟨[], true,
      [LoopPC.inFetch ⟨1, ["a"], BStatus.yet_to_start, "HIGH", 0⟩]⟩ :
        SysState).isProcessing = true ↔
      (⟨[], true,
        [LoopPC.inFetch ⟨1, ["a"], BStatus.yet_to_start, "HIGH", 0⟩]⟩ :
          SysState).loops ≠ []) := by
  have hstep := Step.ingest_idle [] []
    [⟨1, ["a"], BStatus.yet_to_start, "HIGH", 0⟩]
  rw [show ingestStart [] [⟨1, ["a"], BStatus.yet_to_start, "HIGH", 0⟩] [] =
      (⟨[], true,
        [LoopPC.inFetch ⟨1, ["a"], BStatus.yet_to_start, "HIGH", 0⟩]⟩ :
          SysState) from rfl] at hstep
  exact C8_single_flight _
    (Relation.ReflTransGen.tail Relation.ReflTransGen.refl hstep)
